import Mathlib

/-!
Verification development for the block-downloader utility (`main.go`).

The Go program is shallowly embedded: machine `uint64` arithmetic is
modelled on `Nat` with explicit reduction modulo `2 ^ 64`, Go strings are
modelled as `List Char`, fallible operations (Go panics) return `Option`,
and the possibly non-terminating search / harvest loops are given explicit
fuel.  Each definition mirrors the corresponding Go function.
-/

/-- Reduction of a natural number into the unsigned 64-bit range, modelling
Go `uint64` coercion of an unbounded value. -/
def u64 (n : Nat) : Nat := n % 2 ^ 64

/-- Go conversion `uint64(v)` of a signed value `v` (two's-complement wrap
modulo `2 ^ 64`). -/
def u64ofInt (v : Int) : Nat := (Int.emod v (2 ^ 64)).toNat

/-- Go `uint64` multiplication: the product wraps modulo `2 ^ 64`. -/
def u64mul (a b : Nat) : Nat := (a * b) % 2 ^ 64

/-- Go `uint64` subtraction `a - b`: wraps modulo `2 ^ 64`. -/
def u64sub (a b : Nat) : Nat := (a % 2 ^ 64 + (2 ^ 64 - b % 2 ^ 64)) % 2 ^ 64

/-- Numeric value of a decimal digit character. -/
def charVal (c : Char) : Nat := c.toNat - '0'.toNat

/-- Accumulator pass over a digit string, as performed by Go
`strconv.ParseInt`: fails on the first non-digit character. -/
def digitsValAux : List Char → Nat → Option Nat
  | [], acc => some acc
  | c :: cs, acc =>
    if c.isDigit then digitsValAux cs (acc * 10 + charVal c) else none

/-- Value of a non-empty all-digit character string; `none` if the string is
empty or contains a non-digit. -/
def digitsVal (cs : List Char) : Option Nat :=
  if cs.isEmpty then none else digitsValAux cs 0

/-- Go `strconv.Atoi` (= `ParseInt(s, 10, 0)` on a 64-bit platform): an
optional sign followed by at least one decimal digit, with the value
required to fit in `int64`; out-of-range or malformed input yields an error
(modelled as `none`). -/
def goAtoi (cs : List Char) : Option Int :=
  match cs with
  | [] => none
  | c0 :: rest =>
    if c0 = '-' then
      (digitsVal rest).bind fun n =>
        if n ≤ 2 ^ 63 then some (-(n : Int)) else none
    else if c0 = '+' then
      (digitsVal rest).bind fun n =>
        if n < 2 ^ 63 then some ((n : Int)) else none
    else
      (digitsVal cs).bind fun n =>
        if n < 2 ^ 63 then some ((n : Int)) else none

/-- Unit sizes of the relative-date suffix letters, from the `switch` in
`parseDate`; expects the already-lowercased last character of the input. -/
def unitSize (c : Char) : Option Nat :=
  if c = 'h' then some (60 * 60)
  else if c = 'd' then some (24 * 60 * 60)
  else if c = 'm' then some (30 * 24 * 60 * 60)
  else if c = 'y' then some (365 * 24 * 60 * 60)
  else none

/-- Number of days in a month of the proleptic Gregorian calendar, as used
by Go `time.Parse` to validate the day field. -/
def daysInMonth (y m : Nat) : Nat :=
  if m = 2 then
    if (y % 4 = 0 ∧ y % 100 ≠ 0) ∨ y % 400 = 0 then 29 else 28
  else if m = 4 ∨ m = 6 ∨ m = 9 ∨ m = 11 then 30 else 31

/-- Days elapsed from 1970-01-01 to year `y`, month `m`, day `d` of the
proleptic Gregorian calendar (negative before the epoch); the civil-to-days
conversion underlying Go `time.Time.Unix` for a UTC-midnight date. -/
def daysFromCivil (y m d : Nat) : Int :=
  let yy := if m ≤ 2 then y + 399 else y + 400
  let era := yy / 400
  let yoe := yy % 400
  let doy := (153 * (if m ≤ 2 then m + 9 else m - 3) + 2) / 5 + (d - 1)
  let doe := yoe * 365 + yoe / 4 - yoe / 100 + doy
  ((era * 146097 + doe : Nat) : Int) - 719468 - 146097

/-- Go `time.Parse("2006-01-02", s)` followed by `uint64(t.Unix())`: the
layout demands exactly four year digits, a dash, two month digits, a dash
and two day digits, with the month in `[1, 12]` and the day within the
month; the resulting UTC-midnight epoch second count is wrapped into
`uint64` (dates before 1970 wrap to huge values). -/
def parseAbs (cs : List Char) : Option Nat :=
  match cs with
  | [y1, y2, y3, y4, s1, m1, m2, s2, d1, d2] =>
    if (s1 = '-' && s2 = '-' &&
        [y1, y2, y3, y4, m1, m2, d1, d2].all Char.isDigit) then
      let y := ((charVal y1 * 10 + charVal y2) * 10 + charVal y3) * 10 + charVal y4
      let m := charVal m1 * 10 + charVal m2
      let d := charVal d1 * 10 + charVal d2
      if 1 ≤ m ∧ m ≤ 12 ∧ 1 ≤ d ∧ d ≤ daysInMonth y m then
        some (u64ofInt (86400 * daysFromCivil y m d))
      else none
    else none
  | _ => none

/-- Model of `parseDate` from `main.go`, parametrised by the current
wall-clock Unix second count `now` (a `uint64` value).  A Go panic — from
`time.Parse` failure, the `switch` default, a `strconv.Atoi` error, or
indexing into an empty string — is modelled as `none`. -/
def parseDate (now : Nat) (date : List Char) : Option Nat :=
  if date.map Char.toLower = ['n', 'o', 'w'] then some now
  else
    match date with
    | [] => none
    | c0 :: rest =>
      if c0 ≠ '-' then parseAbs date
      else
        match rest.getLast? with
        | none => none
        | some cl =>
          match unitSize cl.toLower with
          | none => none
          | some unit =>
            match goAtoi rest.dropLast with
            | none => none
            | some v => some (u64sub now (u64mul (u64ofInt v) unit))

/-- Modelled from the spec: the set of date strings the specification
recognises, with the relative form amended to an optionally signed
`int64`-ranged integer as accepted by `strconv.Atoi` — case-insensitive
`now`, a valid absolute `YYYY-MM-DD` date, or `-<k><u>` with
`u ∈ {h,d,m,y}` case-insensitively. -/
def recognizedDate (cs : List Char) : Bool :=
  (cs.map Char.toLower = ['n', 'o', 'w'] : Bool) ||
    (match cs with
     | [] => false
     | c0 :: rest =>
       if c0 = '-' then
         match rest.getLast? with
         | none => false
         | some cl => (unitSize cl.toLower).isSome && (goAtoi rest.dropLast).isSome
       else (parseAbs cs).isSome)

/-- Modelled from the spec: the relative date form exactly as the original
claim states it — a leading dash, a non-negative decimal integer `k` (any
number of digits), and a unit letter in `{h,d,m,y}` case-insensitively. -/
def relFormNonneg (cs : List Char) : Bool :=
  match cs with
  | [] => false
  | c0 :: rest =>
    c0 = '-' &&
      (match rest.getLast? with
       | none => false
       | some cl => (unitSize cl.toLower).isSome && (digitsVal rest.dropLast).isSome)

/-- Fuelled model of the loop body of `binarySearchF` from `main.go`.  Go's
integer division truncates toward zero, so the midpoint is `Int.tdiv`;
running out of fuel (the Go loop can diverge on negative ranges) yields
`none`. -/
def bsLoop (f : Int → Int) : Nat → Int → Int → Option Int
  | 0, _, _ => none
  | fuel + 1, lower, upper =>
    if lower < upper then
      let mid := Int.tdiv (lower + upper) 2
      let v := f mid
      if v < 0 then bsLoop f fuel (mid + 1) upper
      else if 0 < v then bsLoop f fuel lower mid
      else some mid
    else some lower

/-- Model of `binarySearchF` (instantiated at a signed integer type): the
loop runs with fuel `(upper - lower).toNat + 1`, which suffices whenever
the Go loop terminates on a non-negative range. -/
def binarySearchF (lower upper : Int) (f : Int → Int) : Option Int :=
  bsLoop f ((upper - lower).toNat + 1) lower upper

/-- Name of the blob file of index `i`, as produced by `os.Create` in
`newWriterWithCounter` and by `fmt.Sprintf` in `writer.Write`. -/
def blobFileName (pref : String) (i : Nat) : String :=
  pref ++ toString i ++ ".blob"

/-- State of the blob sink `writer` from `main.go`.  The field `pref`
models Go's name-prefix field, `n` the total bytes written, `blobW0` the
value of `n` when the current file was opened, `blobI` the index of the
current file, and `fileName` the name of the currently open file. -/
structure BlobWriter where
  n : Nat
  blobW0 : Nat
  blobI : Nat
  pref : String
  blobSize : Nat
  fileName : String
  deriving Repr, DecidableEq

/-- Model of `newWriterWithCounter`: creates file `pref ++ "0.blob"` and a
zeroed counter state; no validation of `blobSize` is performed. -/
def newWriterWithCounter (pref : String) (blobSize : Nat) : BlobWriter :=
  { n := 0, blobW0 := 0, blobI := 0, pref := pref, blobSize := blobSize,
    fileName := blobFileName pref 0 }

/-- Successful path of `writer.Write` for a write of `count` bytes: the
count is added to `n`, and afterwards — never in the middle of the write —
the sink rolls to the next blob file when `n - blobW0 ≥ blobSize`. -/
def writerWriteOk (w : BlobWriter) (count : Nat) : BlobWriter :=
  let n1 := w.n + count
  if w.blobSize ≤ n1 - w.blobW0 then
    { w with
      n := n1
      blobW0 := n1
      blobI := w.blobI + 1
      fileName := blobFileName w.pref (w.blobI + 1) }
  else { w with n := n1 }

/-- Model of `writer.Write`: the underlying `os.File.Write` outcome is an
input `(count, err)`.  On error the method returns the partial count and
the error before touching any state; on success it proceeds as
`writerWriteOk`. -/
def writerWrite (w : BlobWriter) (count : Nat) (err : Bool) : (Nat × Bool) × BlobWriter :=
  if err then ((count, true), w)
  else ((count, false), writerWriteOk w count)

/-- Folding a sequence of successful writes through the sink. -/
def writerWriteManyOk (w : BlobWriter) (cs : List Nat) : BlobWriter :=
  cs.foldl writerWriteOk w

/-- Folding a sequence of arbitrary write outcomes `(count, err)` through
the sink. -/
def writerRun (w : BlobWriter) (ops : List (Nat × Bool)) : BlobWriter :=
  ops.foldl (fun w op => (writerWrite w op.1 op.2).2) w

/-- Number of rolls performed while folding the given successful writes
through the sink, counted by the roll condition of `writer.Write`. -/
def rollCount : BlobWriter → List Nat → Nat
  | _, [] => 0
  | w, c :: cs =>
    (if w.blobSize ≤ w.n + c - w.blobW0 then 1 else 0) +
      rollCount (writerWriteOk w c) cs

/-- State of `progressReporter` from `main.go`: `n` is the denominator,
`pct` the last computed integer percentage, `lastReportTime` the Unix time
of the last `update` call (updated on every call, emitting or not). -/
structure ProgressReporter where
  n : Nat
  pct : Nat
  lastReportTime : Int
  deriving Repr, DecidableEq

/-- Model of `progressReporter.update` at numerator `i` and current time
`now`: returns whether a progress line is printed, and the new state.  Both
`pct` and `lastReportTime` are unconditionally overwritten at the end of
the call. -/
def progressUpdate (r : ProgressReporter) (i : Nat) (now : Int) :
    Bool × ProgressReporter :=
  let newPct := i * 100 / r.n
  let emit : Bool := newPct ≠ r.pct || now - r.lastReportTime > 30
  (emit, { r with pct := newPct, lastReportTime := now })

/-- Heights visited by the sequential-mode loop of `main`:
`for i := startNum; i < endNum; i++`. -/
def seqHeights (startNum endNum : Int) : List Int :=
  (List.range (endNum - startNum).toNat).map (fun i => startNum + (i : Int))

/-- Fuelled model of the sampled-mode loop of `main`.  Arguments: `enc`
gives the encoded byte size of each block height, `draws i` the `i`-th
value supplied by the random source (reduced into range by `% span`),
`startNum` and `span` the range data, `maxSize` the byte budget; then fuel,
the draw index, and the bytes written so far.  The result records the list
of bounds passed to `crypto/rand.Int` and `some` of the final byte count,
or `none` when `rand.Int` is invoked with a non-positive bound (which
panics in Go). -/
def sampledLoop (enc : Int → Nat) (draws : Nat → Nat) (startNum span : Int)
    (maxSize : Nat) : Nat → Nat → Nat → List Int × Option Nat
  | 0, _, written => ([], some written)
  | fuel + 1, i, written =>
    if written < maxSize then
      if span ≤ 0 then ([span], none)
      else
        let u := draws i % span.toNat
        let written1 := written + enc (startNum + (u : Int))
        let rest := sampledLoop enc draws startNum span maxSize fuel (i + 1) written1
        (span :: rest.1, rest.2)
    else ([], some written)

/-- Unfolding equation for one iteration of `bsLoop`. -/
theorem bsLoop_succ (f : Int → Int) (fuel : Nat) (lower upper : Int) :
    bsLoop f (fuel + 1) lower upper =
      if lower < upper then
        if f (Int.tdiv (lower + upper) 2) < 0 then
          bsLoop f fuel (Int.tdiv (lower + upper) 2 + 1) upper
        else if 0 < f (Int.tdiv (lower + upper) 2) then
          bsLoop f fuel lower (Int.tdiv (lower + upper) 2)
        else some (Int.tdiv (lower + upper) 2)
      else some lower := rfl

/-- Invariant-carrying specification of the `binarySearchF` loop on
non-negative ranges: with enough fuel it returns a height in
`[lower, upper]` at which `f` is non-negative (unless it is `upper`) and
whose predecessor evaluates non-positively (unless it is `lower`). -/
theorem bsLoop_spec (f : Int → Int) (hmono : ∀ x y : Int, x ≤ y → f x ≤ f y) :
    ∀ (fuel : Nat) (lower upper : Int), 0 ≤ lower → lower ≤ upper →
      (upper - lower).toNat < fuel →
      ∃ h, bsLoop f fuel lower upper = some h ∧ lower ≤ h ∧ h ≤ upper ∧
        (h = upper ∨ 0 ≤ f h) ∧ (h = lower ∨ f (h - 1) ≤ 0) := by
  intro fuel
  induction fuel with
  | zero => intro lower upper _ _ hf; omega
  | succ fuel ih =>
    intro lower upper hl hlu hf
    by_cases hltu : lower < upper
    · have hsum : (0 : Int) ≤ lower + upper := by omega
      have htd : Int.tdiv (lower + upper) 2 = (lower + upper) / 2 :=
        Int.tdiv_eq_ediv hsum (by norm_num)
      have hmid1 : lower ≤ Int.tdiv (lower + upper) 2 := by rw [htd]; omega
      have hmid2 : Int.tdiv (lower + upper) 2 < upper := by rw [htd]; omega
      rcases lt_trichotomy (f (Int.tdiv (lower + upper) 2)) 0 with hv | hv | hv
      · obtain ⟨h, hrun, hh1, hh2, hh3, hh4⟩ :=
          ih (Int.tdiv (lower + upper) 2 + 1) upper (by omega) (by omega) (by omega)
        refine ⟨h, ?_, by omega, hh2, hh3, ?_⟩
        · rw [bsLoop_succ, if_pos hltu, if_pos hv]; exact hrun
        · rcases hh4 with h4 | h4
          · right
            have hx : h - 1 = Int.tdiv (lower + upper) 2 := by omega
            rw [hx]; exact le_of_lt hv
          · exact Or.inr h4
      · refine ⟨Int.tdiv (lower + upper) 2, ?_, hmid1, by omega, Or.inr (le_of_eq hv.symm), ?_⟩
        · rw [bsLoop_succ, if_pos hltu, if_neg (by omega), if_neg (by omega)]
        · right
          have := hmono (Int.tdiv (lower + upper) 2 - 1) (Int.tdiv (lower + upper) 2) (by omega)
          omega
      · obtain ⟨h, hrun, hh1, hh2, hh3, hh4⟩ :=
          ih lower (Int.tdiv (lower + upper) 2) hl (by omega) (by omega)
        refine ⟨h, ?_, hh1, by omega, ?_, hh4⟩
        · rw [bsLoop_succ, if_pos hltu, if_neg (by omega), if_pos hv]; exact hrun
        · right
          rcases hh3 with h3 | h3
          · rw [h3]; exact le_of_lt hv
          · exact h3
    · refine ⟨lower, ?_, le_refl lower, hlu, Or.inl (by omega), Or.inl rfl⟩
      rw [bsLoop_succ, if_neg hltu]

/-- C1 (amended): for every integer range with `0 ≤ lower ≤ upper` and
every non-decreasing `f` into `{-1, 0, +1}`, `binarySearchF` returns a
height `h` with `lower ≤ h ≤ upper` such that either `h = upper` or
`f h ≥ 0`, and either `h = lower` or `f (h-1) ≤ 0`.  (The original
claim's `f (h-1) < 0` fails on zero plateaus of `f`, and on negative
ranges Go's truncating midpoint can step outside `[lower, upper]`; see
the counterexample.) -/
theorem binarySearchF_spec (lower upper : Int) (f : Int → Int)
    (hl : 0 ≤ lower) (hlu : lower ≤ upper)
    (hmono : ∀ x y : Int, x ≤ y → f x ≤ f y)
    (hrange : ∀ x : Int, f x = -1 ∨ f x = 0 ∨ f x = 1) :
    ∃ h, binarySearchF lower upper f = some h ∧ lower ≤ h ∧ h ≤ upper ∧
      (h = upper ∨ 0 ≤ f h) ∧ (h = lower ∨ f (h - 1) ≤ 0) :=
  bsLoop_spec f hmono ((upper - lower).toNat + 1) lower upper hl hlu
    (Nat.lt_succ_self _)

/-- Sign predicate used to exercise `binarySearchF` at a concrete input. -/
def stepSign (x : Int) : Int := if x < 5 then -1 else 1

/-- Witness for `binarySearchF_spec` at `lower = 0`, `upper = 10` and a
step predicate crossing at height 5. -/
theorem binarySearchF_spec_witness :
    (0 : Int) ≤ 0 ∧ (0 : Int) ≤ 10 ∧
      (∀ x y : Int, x ≤ y → stepSign x ≤ stepSign y) ∧
      (∀ x : Int, stepSign x = -1 ∨ stepSign x = 0 ∨ stepSign x = 1) ∧
      (∃ h, binarySearchF 0 10 stepSign = some h ∧ 0 ≤ h ∧ h ≤ 10 ∧
        (h = 10 ∨ 0 ≤ stepSign h) ∧ (h = 0 ∨ stepSign (h - 1) ≤ 0)) := by
  refine ⟨le_refl 0, by norm_num, ?_, ?_, ?_⟩
  · intro x y hxy; unfold stepSign; split_ifs <;> omega
  · intro x; unfold stepSign; split_ifs <;> simp
  · exact binarySearchF_spec 0 10 stepSign (le_refl 0) (by norm_num)
      (by intro x y hxy; unfold stepSign; split_ifs <;> omega)
      (by intro x; unfold stepSign; split_ifs <;> simp)

/-- C1 counterexample: on the constant-zero predicate over `[0, 10]` the
code returns 5 (an early zero hit), which is neither the smallest height
with `f ≥ 0` nor satisfies `f (h-1) < 0`; and on the negative range
`[-3, -2]` with the constant `-1` predicate the truncating midpoint makes
the code return `-1 > upper`. -/
theorem binarySearchF_cex :
    binarySearchF 0 10 (fun _ => 0) = some 5 ∧
      ¬((5 : Int) = 0 ∨ ((fun _ : Int => (0 : Int)) 4) < 0) ∧
      binarySearchF (-3) (-2) (fun _ => -1) = some (-1) ∧
      ¬((-1 : Int) ≤ -2) := by
  refine ⟨by decide, by simp, by decide, by norm_num⟩

/-- Byte counter after one successful write: always advances by the full
count, in both the rolling and the non-rolling branch. -/
theorem writerWriteOk_n (w : BlobWriter) (c : Nat) :
    (writerWriteOk w c).n = w.n + c := by
  simp only [writerWriteOk]
  split <;> rfl

/-- Blob index after one successful write: advances exactly when the roll
condition of `writer.Write` holds. -/
theorem writerWriteOk_blobI (w : BlobWriter) (c : Nat) :
    (writerWriteOk w c).blobI =
      w.blobI + (if w.blobSize ≤ w.n + c - w.blobW0 then 1 else 0) := by
  simp only [writerWriteOk]
  split <;> simp

/-- C2: after a successful write of `count` bytes the sink rolls — sets
`blobStart` to the updated `totalWritten`, increments `blobIndex` and opens
the file named with the new index — if and only if
`totalWritten - blobStart ≥ blobSize` for the updated `totalWritten`;
otherwise `blobStart`, `blobIndex` and the open file are untouched.  The
roll happens after the whole count is accounted to the old file, never in
the middle of the write. -/
theorem writerWrite_roll_iff (w : BlobWriter) (count : Nat) :
    ((writerWriteOk w count).blobI = w.blobI + 1 ↔
        w.blobSize ≤ w.n + count - w.blobW0) ∧
      (writerWriteOk w count).n = w.n + count ∧
      (w.blobSize ≤ w.n + count - w.blobW0 →
        (writerWriteOk w count).blobW0 = w.n + count ∧
          (writerWriteOk w count).blobI = w.blobI + 1 ∧
          (writerWriteOk w count).fileName = blobFileName w.pref (w.blobI + 1)) ∧
      (¬ w.blobSize ≤ w.n + count - w.blobW0 →
        (writerWriteOk w count).blobW0 = w.blobW0 ∧
          (writerWriteOk w count).blobI = w.blobI ∧
          (writerWriteOk w count).fileName = w.fileName) := by
  simp only [writerWriteOk]
  by_cases hc : w.blobSize ≤ w.n + count - w.blobW0
  · simp [hc]
  · simp [hc]

/-- C9: when the underlying file write fails, `writer.Write` returns the
partial count and the error, and every piece of sink state — the byte
counter, the blob start, the blob index and the open file — keeps its
prior value; no roll occurs, whatever the partial count was. -/
theorem writerWrite_err_preserves (w : BlobWriter) (count : Nat) :
    (writerWrite w count true).1 = (count, true) ∧
      (writerWrite w count true).2.n = w.n ∧
      (writerWrite w count true).2.blobW0 = w.blobW0 ∧
      (writerWrite w count true).2.blobI = w.blobI ∧
      (writerWrite w count true).2.fileName = w.fileName ∧
      (writerWrite w count true).2 = w := by
  simp [writerWrite]

/-- Total bytes after a sequence of successful writes. -/
theorem writerWriteManyOk_n (cs : List Nat) : ∀ w : BlobWriter,
    (writerWriteManyOk w cs).n = w.n + cs.sum := by
  induction cs with
  | nil => intro w; simp [writerWriteManyOk]
  | cons c cs ih =>
    intro w
    simp only [writerWriteManyOk, List.foldl_cons] at ih ⊢
    rw [ih (writerWriteOk w c), writerWriteOk_n]
    simp [List.sum_cons]
    omega

/-- Blob index after a sequence of successful writes equals the prior
index plus the number of rolls performed. -/
theorem writerWriteManyOk_blobI (cs : List Nat) : ∀ w : BlobWriter,
    (writerWriteManyOk w cs).blobI = w.blobI + rollCount w cs := by
  induction cs with
  | nil => intro w; simp [writerWriteManyOk, rollCount]
  | cons c cs ih =>
    intro w
    simp only [writerWriteManyOk, List.foldl_cons, rollCount] at ih ⊢
    rw [ih (writerWriteOk w c), writerWriteOk_blobI]
    omega

/-- Byte counter monotonicity over arbitrary write outcomes. -/
theorem writerRun_n_mono (ops : List (Nat × Bool)) : ∀ w : BlobWriter,
    w.n ≤ (writerRun w ops).n := by
  induction ops with
  | nil => intro w; simp [writerRun]
  | cons op ops ih =>
    intro w
    simp only [writerRun, List.foldl_cons] at ih ⊢
    refine le_trans ?_ (ih ((writerWrite w op.1 op.2).2))
    unfold writerWrite
    split
    · exact le_refl _
    · rw [writerWriteOk_n]; omega

/-- C8: starting from a fresh sink, after any sequence of successful
writes of total length `L = cs.sum`, `written()` returns exactly `L`,
`blobIndex` equals the number of rolls that occurred, and `totalWritten`
is monotonically non-decreasing across all operations (including failed
writes). -/
theorem writer_counters (pref : String) (bs : Nat) (cs : List Nat) :
    (writerWriteManyOk (newWriterWithCounter pref bs) cs).n = cs.sum ∧
      (writerWriteManyOk (newWriterWithCounter pref bs) cs).blobI =
        rollCount (newWriterWithCounter pref bs) cs ∧
      (∀ (w : BlobWriter) (ops : List (Nat × Bool)), w.n ≤ (writerRun w ops).n) := by
  refine ⟨?_, ?_, fun w ops => writerRun_n_mono ops w⟩
  · rw [writerWriteManyOk_n]; simp [newWriterWithCounter]
  · rw [writerWriteManyOk_blobI]; simp [newWriterWithCounter]

/-- C3 evaluation: in sampled mode with `startNum = endNum` (span 0) and a
positive byte budget, the first loop iteration already hands the empty
bound 0 to `crypto/rand.Int`, which panics — the loop does not terminate
immediately as the specification requires. -/
theorem sampledLoop_empty_span :
    sampledLoop (fun _ => 1) (fun _ => 0) 5 0 1 3 0 0 = ([0], none) := by
  decide

/-- C4 evaluation: the configuration is never validated.
`newWriterWithCounter` accepts `blobsize = 0` and hands back a working
sink (which then rolls on every write), and a sequential run with
`startNum > endNum` simply visits no heights and finishes cleanly — no
`InvalidConfig` failure exists in the code. -/
theorem invalidConfig_not_rejected :
    (newWriterWithCounter "blocks/" 0).blobSize = 0 ∧
      (writerWriteOk (newWriterWithCounter "blocks/" 0) 1).blobI = 1 ∧
      seqHeights 7 3 = [] := by
  refine ⟨rfl, by decide, by decide⟩

/-- C5 (amended): a progress line is emitted on a call to `update` exactly
when the freshly computed integer percentage differs from the one computed
at the previous call, or more than 30 seconds have elapsed since the
previous `update` call — emitting or not — because `lastReportTime` is
overwritten on every call, not only on emission. -/
theorem progressUpdate_emit_iff (r : ProgressReporter) (i : Nat) (now : Int)
    (hn : 0 < r.n) :
    (progressUpdate r i now).1 = true ↔
      (i * 100 / r.n ≠ r.pct ∨ now - r.lastReportTime > 30) := by
  simp [progressUpdate]

/-- Witness for `progressUpdate_emit_iff` at a concrete reporter state. -/
theorem progressUpdate_emit_iff_witness :
    0 < (100 : Nat) ∧
      ((progressUpdate { n := 100, pct := 0, lastReportTime := 0 } 50 1).1 = true ↔
        (50 * 100 / 100 ≠ 0 ∨ (1 : Int) - 0 > 30)) :=
  ⟨by norm_num,
    progressUpdate_emit_iff { n := 100, pct := 0, lastReportTime := 0 } 50 1 (by norm_num)⟩

/-- C5 counterexample: with `n = 100` and constant numerator 50, calls at
times 1, 21 and 41 emit only at time 1 (the percent change); at time 41
more than 30 seconds have passed since that last emission, yet no line is
emitted, because the 30-second clock was reset by the non-emitting call at
time 21. -/
theorem progressUpdate_cex :
    (progressUpdate { n := 100, pct := 0, lastReportTime := 0 } 50 1).1 = true ∧
      (progressUpdate
        (progressUpdate { n := 100, pct := 0, lastReportTime := 0 } 50 1).2 50 21).1
        = false ∧
      (progressUpdate
        (progressUpdate
          (progressUpdate { n := 100, pct := 0, lastReportTime := 0 } 50 1).2 50 21).2
            50 41).1 = false ∧
      ((41 : Int) - 1 > 30) := by
  decide

/-- Go `Atoi` on an unsigned digit string in the `int64` range yields its
numeric value. -/
theorem goAtoi_digits (ds : List Char) (k : Nat)
    (hds : digitsVal ds = some k) (hk : k < 2 ^ 63) :
    goAtoi ds = some ((k : Nat) : Int) := by
  cases ds with
  | nil => simp [digitsVal] at hds
  | cons c0 rest =>
    have hval : digitsVal (c0 :: rest) =
        if c0.isDigit = true then digitsValAux rest (0 * 10 + charVal c0) else none := by
      simp [digitsVal, digitsValAux]
    have hc0 : c0.isDigit = true := by
      by_contra hnd
      rw [hval, if_neg hnd] at hds
      exact Option.noConfusion hds
    have h1 : c0 ≠ '-' := by intro h; rw [h] at hc0; exact absurd hc0 (by decide)
    have h2 : c0 ≠ '+' := by intro h; rw [h] at hc0; exact absurd hc0 (by decide)
    show (if c0 = '-' then
            (digitsVal rest).bind fun n =>
              if n ≤ 2 ^ 63 then some (-(n : Int)) else none
          else if c0 = '+' then
            (digitsVal rest).bind fun n =>
              if n < 2 ^ 63 then some ((n : Int)) else none
          else
            (digitsVal (c0 :: rest)).bind fun n =>
              if n < 2 ^ 63 then some ((n : Int)) else none) = some ((k : Nat) : Int)
    rw [if_neg h1, if_neg h2, hds]
    show (if k < 2 ^ 63 then some ((k : Nat) : Int) else none) = some ((k : Nat) : Int)
    rw [if_pos hk]

/-- Wrapping a natural number below `2 ^ 64` through the `uint64`
conversion of its `Int` image is the identity. -/
theorem u64ofInt_ofNat (k : Nat) (hk : k < 2 ^ 64) : u64ofInt (k : Nat) = k := by
  unfold u64ofInt
  have h1 : Int.emod (k : Nat) (2 ^ 64) = ((k : Nat) : Int) :=
    Int.emod_eq_of_lt (by positivity) (by exact_mod_cast hk)
  rw [h1]
  simp

/-- Evaluation of `parseDate` on the relative form `-<digits><u>` with an
`int64`-ranged count: the result is `now - k·unit` in wrapping `uint64`
arithmetic. -/
theorem parseDate_rel_eq (now k unit : Nat) (ds : List Char) (c : Char)
    (hds : digitsVal ds = some k) (hk : k < 2 ^ 63)
    (hu : unitSize c.toLower = some unit) :
    parseDate now ('-' :: (ds ++ [c])) = some (u64sub now (u64mul k unit)) := by
  have hnotnow : (('-' :: (ds ++ [c])).map Char.toLower) ≠ ['n', 'o', 'w'] := by
    simp only [List.map_cons]
    intro hcontra
    have : '-'.toLower = 'n' := List.head_eq_of_cons_eq hcontra
    exact absurd this (by decide)
  unfold parseDate
  rw [if_neg hnotnow]
  show (if ('-' : Char) ≠ '-' then parseAbs ('-' :: (ds ++ [c]))
        else
          match (ds ++ [c]).getLast? with
          | none => none
          | some cl =>
            match unitSize cl.toLower with
            | none => none
            | some unit =>
              match goAtoi (ds ++ [c]).dropLast with
              | none => none
              | some v => some (u64sub now (u64mul (u64ofInt v) unit))) =
      some (u64sub now (u64mul k unit))
  rw [if_neg (show ¬(('-' : Char) ≠ '-') by simp)]
  rw [List.getLast?_concat, List.dropLast_concat]
  show (match unitSize c.toLower with
        | none => none
        | some unit =>
          match goAtoi ds with
          | none => none
          | some v => some (u64sub now (u64mul (u64ofInt v) unit))) =
      some (u64sub now (u64mul k unit))
  rw [hu]
  show (match goAtoi ds with
        | none => none
        | some v => some (u64sub now (u64mul (u64ofInt v) unit))) =
      some (u64sub now (u64mul k unit))
  rw [goAtoi_digits ds k hds hk]
  show some (u64sub now (u64mul (u64ofInt ((k : Nat) : Int)) unit)) =
      some (u64sub now (u64mul k unit))
  rw [u64ofInt_ofNat k (lt_trans hk (by norm_num))]

/-- C6 (amended): for every non-negative decimal digit string denoting
`k < 2 ^ 63` (the `strconv.Atoi` range) and every unit letter `u` in
`{h,d,m,y}` case-insensitively, `parseDate("-ku")` returns `now - k·unit`
with unit sizes `h = 3600`, `d = 86400`, `m = 30·86400`, `y = 365·86400`,
whenever the subtraction does not underflow (the original claim's
unbounded `k` fails at `k = 2 ^ 63`, where `Atoi` overflows and the code
panics; see the counterexample). -/
theorem parseDate_relative (now k unit : Nat) (ds : List Char) (c : Char)
    (hds : digitsVal ds = some k) (hk : k < 2 ^ 63)
    (hu : unitSize c.toLower = some unit)
    (hle : k * unit ≤ now) (hnow : now < 2 ^ 64) :
    parseDate now ('-' :: (ds ++ [c])) = some (now - k * unit) := by
  rw [parseDate_rel_eq now k unit ds c hds hk hu]
  congr 1
  unfold u64sub u64mul
  have h64 : (2 : Nat) ^ 64 = 18446744073709551616 := by norm_num
  rw [h64] at hnow ⊢
  omega

/-- Witness for `parseDate_relative`: scenario S6, `parseDate("-2m")` at
wall-clock 6000000 yields `6000000 - 60·86400`. -/
theorem parseDate_relative_witness :
    digitsVal ['2'] = some 2 ∧ 2 < 2 ^ 63 ∧
      unitSize 'm'.toLower = some 2592000 ∧
      2 * 2592000 ≤ 6000000 ∧ 6000000 < 2 ^ 64 ∧
      parseDate 6000000 ('-' :: (['2'] ++ ['m'])) = some (6000000 - 2 * 2592000) :=
  ⟨by decide, by norm_num, by decide, by norm_num, by norm_num,
    parseDate_relative 6000000 2 2592000 ['2'] 'm' (by decide) (by norm_num)
      (by decide) (by norm_num) (by norm_num)⟩

/-- C6 counterexample: `k = 2 ^ 63` is a non-negative decimal integer and
`d` a valid unit letter, yet `parseDate` panics (returns nothing) because
`strconv.Atoi` rejects values above `int64` range — the function does not
return `now - k·unit`. -/
theorem parseDate_relative_cex :
    digitsVal ("9223372036854775808".toList) = some 9223372036854775808 ∧
      parseDate 1700000000 ("-9223372036854775808d".toList) = none := by
  exact ⟨by decide, by decide⟩

/-- C10 (amended): for a relative input `-<k><u>` accepted by `Atoi`
(`k < 2 ^ 63`) whose offset `k·unit` exceeds the current time, `parseDate`
neither fails nor clamps: it returns `now - k·unit` computed modulo
`2 ^ 64` — with the product itself wrapped modulo `2 ^ 64` — and whenever
the product does not itself wrap, the result lies strictly in the future
of `now`. -/
theorem parseDate_relative_wrap (now k unit : Nat) (ds : List Char) (c : Char)
    (hds : digitsVal ds = some k) (hk : k < 2 ^ 63)
    (hu : unitSize c.toLower = some unit)
    (hgt : now < k * unit) (hnow : now < 2 ^ 64) :
    parseDate now ('-' :: (ds ++ [c])) =
        some ((now + (2 ^ 64 - k * unit % 2 ^ 64)) % 2 ^ 64) ∧
      (k * unit < 2 ^ 64 →
        now < (now + (2 ^ 64 - k * unit % 2 ^ 64)) % 2 ^ 64) := by
  have h64 : (2 : Nat) ^ 64 = 18446744073709551616 := by norm_num
  constructor
  · rw [parseDate_rel_eq now k unit ds c hds hk hu]
    congr 1
    unfold u64sub u64mul
    rw [h64] at hnow ⊢
    omega
  · intro hlt
    rw [h64] at hnow hlt ⊢
    omega

/-- Witness for `parseDate_relative_wrap`: `parseDate("-2h")` at
wall-clock 1000 wraps to a far-future instant. -/
theorem parseDate_relative_wrap_witness :
    digitsVal ['2'] = some 2 ∧ 2 < 2 ^ 63 ∧
      unitSize 'h'.toLower = some 3600 ∧
      1000 < 2 * 3600 ∧ 1000 < 2 ^ 64 ∧
      (parseDate 1000 ('-' :: (['2'] ++ ['h'])) =
          some ((1000 + (2 ^ 64 - 2 * 3600 % 2 ^ 64)) % 2 ^ 64) ∧
        (2 * 3600 < 2 ^ 64 →
          1000 < (1000 + (2 ^ 64 - 2 * 3600 % 2 ^ 64)) % 2 ^ 64)) :=
  ⟨by decide, by norm_num, by decide, by norm_num, by norm_num,
    parseDate_relative_wrap 1000 2 3600 ['2'] 'h' (by decide) (by norm_num)
      (by decide) (by norm_num) (by norm_num)⟩

/-- C10 counterexample: the relative input `-10000000000000000000h` has an
offset far beyond the current Unix time, but instead of wrapping,
`parseDate` fails outright — `strconv.Atoi` rejects the count, so not
every such input survives to the wrapping subtraction. -/
theorem parseDate_wrap_cex :
    digitsVal ("10000000000000000000".toList) = some 10000000000000000000 ∧
      1700000000 < 10000000000000000000 * 3600 ∧
      parseDate 1700000000 ("-10000000000000000000h".toList) = none := by
  exact ⟨by decide, by norm_num, by decide⟩

/-- Success of the date parser forces the input into the recognized
language: any `some` result comes from the `now` branch, the absolute
branch or the relative branch. -/
theorem parseDate_some_recognized (now : Nat) (cs : List Char) (x : Nat)
    (hx : parseDate now cs = some x) : recognizedDate cs = true := by
  unfold parseDate at hx
  unfold recognizedDate
  split at hx
  · rename_i hnow
    simp [hnow]
  · rename_i hnow
    split at hx
    · exact Option.noConfusion hx
    · rename_i c0 rest
      split at hx
      · rename_i hc0
        simp [hnow, hc0, hx]
      · rename_i hc0
        split at hx
        · exact Option.noConfusion hx
        · rename_i cl hlast
          split at hx
          · exact Option.noConfusion hx
          · rename_i unit hunit
            split at hx
            · exact Option.noConfusion hx
            · rename_i v hatoi
              have hc0x : c0 = '-' := by simpa using hc0
              simp [hc0x, hlast, hunit, hatoi]

/-- C7 (amended): every input that is not case-insensitive `now`, not a
valid absolute `YYYY-MM-DD` date and not of the relative form `-<k><u>`
with `k` an optionally signed decimal integer in `strconv.Atoi` range and
`u ∈ {h,d,m,y}` case-insensitive, makes `parseDate` fail — a Go panic,
modelled as `none`.  (The original claim restricted `k` to non-negative
integers; `Atoi` also accepts signed counts such as in `--5d`, see the
counterexample.) -/
theorem parseDate_unrecognized (now : Nat) (cs : List Char)
    (hrec : recognizedDate cs = false) : parseDate now cs = none := by
  cases hpd : parseDate now cs with
  | none => rfl
  | some x =>
    rw [parseDate_some_recognized now cs x hpd] at hrec
    exact Bool.noConfusion hrec

/-- Witness for `parseDate_unrecognized` on a plainly malformed input. -/
theorem parseDate_unrecognized_witness :
    recognizedDate ("garbage".toList) = false ∧
      parseDate 0 ("garbage".toList) = none :=
  ⟨by decide, parseDate_unrecognized 0 ("garbage".toList) (by decide)⟩

/-- C7 counterexample: `--5d` is none of the three forms of the original
claim (its count `-5` is not a non-negative decimal integer), yet the
parser does not fail: `strconv.Atoi` accepts `-5`, the `uint64` conversion
wraps it, and the input resolves to `now + 5` days. -/
theorem parseDate_c7_cex :
    ("--5d".toList).map Char.toLower ≠ ['n', 'o', 'w'] ∧
      parseAbs ("--5d".toList) = none ∧
      relFormNonneg ("--5d".toList) = false ∧
      parseDate 1700000000 ("--5d".toList) = some 1700432000 := by
  exact ⟨by decide, by decide, by decide, by decide⟩
